import Mathlib

/-!
Verification of the SuperPromptor template engine
(`src/app/superpromptor/_components/template-display.tsx` and the
FileSelector component): the tag scanner `parseTemplate`, the output
composer `handleCopy`, the refresh reconciler `handleRefresh`, the
size-budget gate in `handleSelectFiles` / `FileItem.handleChange`, and
the folder-tree bulk operations (`getAllFilesInDirectory`,
`handleFolderCheckboxChange`).

Strings are modelled with Lean `String` (a wrapper around `List Char`),
JavaScript `Map`s (insertion-ordered, key-unique) as association lists,
and the opaque file-system handles as natural-number identifiers read
through an oracle function supplied to each operation.
-/

namespace Superpromptor

/-- A segment of the parsed template, mirroring the `Segment` union in
`template-display.tsx`: markdown text, a file-selector slot, or an
input slot. -/
inductive Segment where
  | markdown (content : String)
  | fileSelector (id : String)
  | input (id : String)
deriving DecidableEq, Repr

/-- The characters of the file-tag literal `<superpromptor-file>`. -/
def fileTagChars : List Char := "<superpromptor-file>".data

/-- The characters of the input-tag literal `<superpromptor-input>`. -/
def inputTagChars : List Char := "<superpromptor-input>".data

/-- Test whether `p` is an initial run of `l`
(character-wise).  Models the regex engine testing a literal
alternative at the current scan position. -/
def startsWith : List Char → List Char → Bool
  | [], _ => true
  | _ :: _, [] => false
  | p :: ps, c :: cs => p == c && startsWith ps cs

/-- A lexical token of the template: an ordinary character, or one of
the two tag literals recognised by the regex
`/<(superpromptor-file|superpromptor-input)>/g`. -/
inductive Tok where
  | chr (c : Char)
  | ftag
  | itag
deriving DecidableEq, Repr

/-- One left-to-right pass of the regex loop in `parseTemplate`,
expressed as a tokenizer: at each position the next occurrence of
either tag literal is consumed whole (tags are matched once,
left-to-right, non-overlapping), any other character is passed
through.  The `fuel` argument (always instantiated with the input
length) only bounds the recursion. -/
def tokenizeF : Nat → List Char → List Tok
  | 0, _ => []
  | _ + 1, [] => []
  | fuel + 1, c :: cs =>
    if startsWith fileTagChars (c :: cs) then
      Tok.ftag :: tokenizeF fuel (cs.drop 19)
    else if startsWith inputTagChars (c :: cs) then
      Tok.itag :: tokenizeF fuel (cs.drop 20)
    else
      Tok.chr c :: tokenizeF fuel cs

/-- Tokenize a whole character list. -/
def tokenize (cs : List Char) : List Tok := tokenizeF cs.length cs

/-- Emit the pending text accumulator as a markdown segment, but only
when it is non-empty — `parseTemplate` only pushes a markdown segment
when `match.index > lastIndex` (resp. `lastIndex < content.length`). -/
def flushText (acc : List Char) : List Segment :=
  if acc.isEmpty then [] else [Segment.markdown (String.mk acc)]

/-- Build the segment list from the token stream.  `acc` is the text
accumulated since the last tag and `counter` is the single shared slot
counter of `parseTemplate` (`let counter = 0` … `counter++`), used for
both tag kinds. -/
def segmentsOfToks (acc : List Char) (counter : Nat) : List Tok → List Segment
  | [] => flushText acc
  | Tok.chr c :: ts => segmentsOfToks (acc ++ [c]) counter ts
  | Tok.ftag :: ts =>
    flushText acc ++
      (Segment.fileSelector ("file-" ++ Nat.repr counter) ::
        segmentsOfToks [] (counter + 1) ts)
  | Tok.itag :: ts =>
    flushText acc ++
      (Segment.input ("input-" ++ Nat.repr counter) ::
        segmentsOfToks [] (counter + 1) ts)

/-- Model of `parseTemplate` from `template-display.tsx` (lines
163–196): scan
the content left-to-right for the two tag literals, emitting the text
between matches (only if non-empty) and one slot segment per match,
with ids `"file-<n>"` / `"input-<n>"` drawn from one shared counter. -/
def parseTemplate (content : String) : List Segment :=
  segmentsOfToks [] 0 (tokenize content.data)

/-- Model of `FileDataWithHandle` from `types/file-types.ts`: a
selected file's
relative path, byte size, text contents, and its live
`FileSystemFileHandle` when one exists.  Handles are opaque to the
core; we model them as natural-number identifiers resolved through an
oracle, with `none` for files picked without a live handle. -/
structure FileDataWithHandle where
  path : String
  size : Nat
  contents : String
  handle : Option Nat
deriving DecidableEq, Repr

/-- Look a key up in an insertion-ordered association list, the model
of `Map.get`: the value stored at the first matching key. -/
def mapGet {α : Type} (m : List (String × α)) (k : String) : Option α :=
  match m with
  | [] => none
  | (k', v) :: rest => if k' = k then some v else mapGet rest k

/-- Model of `Map.set` on the association list: replace the value at an
existing key in place, or append a new binding at the end (JavaScript
`Map` keeps insertion order and updates do not move a key). -/
def mapSet {α : Type} (m : List (String × α)) (k : String) (v : α) :
    List (String × α) :=
  if m.any (fun p => p.1 = k) then
    m.map (fun p => if p.1 = k then (k, v) else p)
  else m ++ [(k, v)]

/-- The reducer state of `TemplateDisplay`: the segment list, the map
from file-slot id to its selected files, and the map from input-slot
id to its text value. -/
structure State where
  segments : List Segment
  files : List (String × List FileDataWithHandle)
  inputs : List (String × String)
deriving DecidableEq, Repr

/-- Concatenation of a list of strings with no separator, the model of
JavaScript `array.join("")`. -/
def joinAll : List String → String
  | [] => ""
  | s :: rest => s ++ joinAll rest

/-- The per-file block `` `-- ${file.path} --\n${file.contents}\n` ``
emitted by `handleCopy` for each selected file. -/
def fileBlock (f : FileDataWithHandle) : String :=
  "-- " ++ f.path ++ " --\n" ++ f.contents ++ "\n"

/-- The output `handleCopy` produces for one segment: markdown text
verbatim; for a file slot, the joined blocks of the files bound to its
id (`state.files.get(segment.id) || []`); for an input slot, its bound
value (`state.inputs.get(segment.id) || ''`). -/
def segmentOutput (files : List (String × List FileDataWithHandle))
    (inputs : List (String × String)) : Segment → String
  | Segment.markdown c => c
  | Segment.fileSelector id => joinAll (((mapGet files id).getD []).map fileBlock)
  | Segment.input id => (mapGet inputs id).getD ""

/-- The segment-list half of `handleCopy` (lines 385–396): map each
segment to its output and join with no separator. -/
def composeSegments (files : List (String × List FileDataWithHandle))
    (inputs : List (String × String)) (segments : List Segment) : String :=
  joinAll (segments.map (segmentOutput files inputs))

/-- The composed clipboard output of `handleCopy` for a whole state. -/
def handleCopy (st : State) : String :=
  composeSegments st.files st.inputs st.segments

/-! ### The refresh reconciler (`handleRefresh`, lines 305–368)

File reads are modelled by an oracle `fs : Nat → Option (Nat × String)`
giving the current (size, contents) behind a file handle, or `none`
when `handle.getFile()` / reading rejects; the template re-read by an
oracle `tfs : Nat → Option String`. -/

/-- The per-record body of the `files.map` in `handleRefresh`: with a
live handle, re-read and replace `size` and `contents`
(`{ ...fileData, size: file.size, contents }`); on failure or with no
handle, keep the record as-is. -/
def refreshRecord (fs : Nat → Option (Nat × String))
    (fd : FileDataWithHandle) : FileDataWithHandle :=
  match fd.handle with
  | none => fd
  | some h =>
    match fs h with
    | some (sz, cts) => { fd with size := sz, contents := cts }
    | none => fd

/-- Whether the per-record refresh set `filesRefreshed = true`, i.e.
the record had a handle and its re-read succeeded. -/
def recordRefreshOk (fs : Nat → Option (Nat × String))
    (fd : FileDataWithHandle) : Bool :=
  match fd.handle with
  | none => false
  | some h => (fs h).isSome

/-- The per-file error alerts (`Failed to refresh file: <path>`) the
record contributes: one when it has a handle whose re-read fails,
none otherwise. -/
def recordRefreshErrors (fs : Nat → Option (Nat × String))
    (fd : FileDataWithHandle) : List String :=
  match fd.handle with
  | none => []
  | some h =>
    match fs h with
    | some _ => []
    | none => ["Failed to refresh file: " ++ fd.path]

/-- The refreshed files map: every slot's list is re-read
record-by-record (`SET_FILES` is dispatched back for each tag id of
the map, leaving keys and list shapes intact). -/
def refreshFiles (fs : Nat → Option (Nat × String))
    (files : List (String × List FileDataWithHandle)) :
    List (String × List FileDataWithHandle) :=
  files.map (fun p => (p.1, p.2.map (refreshRecord fs)))

/-- Whether any record in any slot was successfully re-read
(`filesRefreshed`). -/
def anyFileRefreshed (fs : Nat → Option (Nat × String))
    (files : List (String × List FileDataWithHandle)) : Bool :=
  files.any (fun p => p.2.any (recordRefreshOk fs))

/-- Concatenate a list of lists in order (used to collect the per-file
error alerts of a whole refresh pass). -/
def joinLists {α : Type} : List (List α) → List α
  | [] => []
  | l :: rest => l ++ joinLists rest

/-- All per-file refresh errors, in map/list order. -/
def refreshErrors (fs : Nat → Option (Nat × String))
    (files : List (String × List FileDataWithHandle)) : List String :=
  joinLists (files.map (fun p => joinLists (p.2.map (recordRefreshErrors fs))))

/-- The observable outcome of one `handleRefresh` call: the state it
leaves behind, the two success flags, the per-file error alerts
raised, and whether the outer `catch` fired (the catch-all
`Failed to refresh…` alert). -/
structure RefreshOutcome where
  state : State
  templateRefreshed : Bool
  filesRefreshed : Bool
  fileErrors : List String
  fatal : Bool
deriving DecidableEq, Repr

/-- Model of `handleRefresh`: re-read the template through its handle if one
exists — a failure there escapes to the single outer `catch`, skipping
everything that follows — then re-read every selected file, collecting
per-file failures without throwing. -/
def handleRefresh (tfs : Nat → Option String)
    (fs : Nat → Option (Nat × String)) (templateHandle : Option Nat)
    (st : State) : RefreshOutcome :=
  match templateHandle with
  | some h =>
    match tfs h with
    | none =>
      { state := st, templateRefreshed := false, filesRefreshed := false,
        fileErrors := [], fatal := true }
    | some content =>
      { state := { st with segments := parseTemplate content,
                           files := refreshFiles fs st.files },
        templateRefreshed := true,
        filesRefreshed := anyFileRefreshed fs st.files,
        fileErrors := refreshErrors fs st.files, fatal := false }
  | none =>
    { state := { st with files := refreshFiles fs st.files },
      templateRefreshed := false,
      filesRefreshed := anyFileRefreshed fs st.files,
      fileErrors := refreshErrors fs st.files, fatal := false }

/-! ### The file selector (`file-selector.tsx`): size-budget gate and
folder-tree operations -/

/-- A candidate file offered by a picker or enumerated under a folder:
its name, current byte size and text contents, and the live handle it
is read through. -/
structure CandidateFile where
  name : String
  size : Nat
  contents : String
  handleId : Nat
deriving DecidableEq, Repr

/-- The fixed large-file threshold `10 * 1024 * 1024` bytes used by
every selection path. -/
def sizeThreshold : Nat := 10 * 1024 * 1024

/-- The inclusion decision for one candidate: files strictly over the
threshold are admitted iff the `confirmLargeFile` dialog resolves
true; files at or below it are admitted unconditionally
(`let include = true; if (file.size > 10 * 1024 * 1024) include =
await confirmLargeFile(file)`). -/
def gateAdmits (confirm : CandidateFile → Bool) (c : CandidateFile) : Bool :=
  if c.size > sizeThreshold then confirm c else true

/-- The `FileDataWithHandle` record built for an admitted candidate in
`handleSelectFiles` (`path` is the bare file name for direct
selection). -/
def candidateRecord (c : CandidateFile) : FileDataWithHandle :=
  { path := c.name, size := c.size, contents := c.contents,
    handle := some c.handleId }

/-- The per-handle loop of `handleSelectFiles` (lines 403–435): for
each picked file in order, gate it when oversized and push a record
when admitted.  Returns the records pushed and, as the second
component, the candidates for which `confirmLargeFile` was invoked
(exactly the oversized ones). -/
def processPickedFiles (confirm : CandidateFile → Bool) :
    List CandidateFile → List FileDataWithHandle × List CandidateFile
  | [] => ([], [])
  | c :: cs =>
    let rest := processPickedFiles confirm cs
    ((if gateAdmits confirm c then [candidateRecord c] else []) ++ rest.1,
     (if c.size > sizeThreshold then [c] else []) ++ rest.2)

/-- Model of `handleSelectFiles`: append the admitted new records to the
current selection (`updateFiles([...files, ...newFiles])`), but only
when at least one was admitted. -/
def handleSelectFiles (confirm : CandidateFile → Bool)
    (files : List FileDataWithHandle) (picked : List CandidateFile) :
    List FileDataWithHandle :=
  let newFiles := (processPickedFiles confirm picked).1
  if newFiles.length > 0 then files ++ newFiles else files

/-- Model of `FileItem.handleChange` (lines 139–161): checking a file's
checkbox gates it when oversized and appends one record on admission
(`addFile` is `updateFiles([...files, fileData])`, with `path` the
tree-relative path); vetoed candidates are discarded entirely.
Unchecking removes every record whose path equals this file's path. -/
def fileItemHandleChange (confirm : CandidateFile → Bool) (checked : Bool)
    (files : List FileDataWithHandle) (path : String) (c : CandidateFile) :
    List FileDataWithHandle :=
  if checked then
    if gateAdmits confirm c then
      files ++ [{ path := path, size := c.size, contents := c.contents,
                  handle := some c.handleId }]
    else files
  else
    files.filter (fun f => f.path != path)

/-- A file enumerated by `getAllFilesInDirectory`: its handle and its
path relative to the enumeration root. -/
structure EnumFile where
  handle : Nat
  path : String
deriving DecidableEq, Repr

mutual
/-- A directory entry as surfaced by `directoryHandle.entries()`:
either a file (with its handle) or a subdirectory with its own
entries. -/
inductive Entry where
  | file (name : String) (handleId : Nat) : Entry
  | dir (name : String) (children : EntryList) : Entry
/-- The ordered entry list of one directory. -/
inductive EntryList where
  | nil : EntryList
  | cons (e : Entry) (rest : EntryList) : EntryList
end

mutual
/-- Model of `getAllFilesInDirectory` (lines 107–124): full recursive descent
over a directory's entries in iteration order, collecting every file
with its path `currentPath + name`, descending into subdirectories
with `currentPath + name + "/"`. -/
def getAllFilesInDirectory : EntryList → String → List EnumFile
  | EntryList.nil, _ => []
  | EntryList.cons e rest, currentPath =>
    entryFiles e currentPath ++ getAllFilesInDirectory rest currentPath

/-- The files contributed by a single entry of the iteration. -/
def entryFiles : Entry → String → List EnumFile
  | Entry.file name h, currentPath => [⟨h, currentPath ++ name⟩]
  | Entry.dir name children, currentPath =>
    getAllFilesInDirectory children (currentPath ++ name ++ "/")
end

/-- The unchecked branch of `handleFolderCheckboxChange` (lines
271–276): keep exactly the current records whose path matches no file
enumerated under the folder
(`currentFiles.filter((f) => !allFiles.some((af) => af.path === f.path))`). -/
def folderUncheck (allFiles : List EnumFile)
    (files : List FileDataWithHandle) : List FileDataWithHandle :=
  files.filter (fun f => ! allFiles.any (fun af => af.path == f.path))

/-! ### Spec-side statement functions -/

/-- The literal text a segment stands for in the original template:
a markdown segment's content, or the tag literal that produced a slot
segment (used to state the reconstruction half of scan determinism). -/
def segmentLiteral : Segment → String
  | Segment.markdown c => c
  | Segment.fileSelector _ => "<superpromptor-file>"
  | Segment.input _ => "<superpromptor-input>"

/-- Reconstruction of a template from its segments: concatenate the
text contents with the tag literals re-inserted at slot positions. -/
def reconstructSegments (segs : List Segment) : String :=
  joinAll (segs.map segmentLiteral)

/-- Substring occurrence: `occursIn p cs` is true when `p` occurs
contiguously in `cs`
of `cs` (used to state the claims about tag-free templates). -/
def occursIn (p : List Char) : List Char → Bool
  | [] => startsWith p []
  | c :: cs => startsWith p (c :: cs) || occursIn p cs

/-! ### Scanner lemmas -/

/-- The character list a token stream came from. -/
def detok : List Tok → List Char
  | [] => []
  | Tok.chr c :: ts => c :: detok ts
  | Tok.ftag :: ts => fileTagChars ++ detok ts
  | Tok.itag :: ts => inputTagChars ++ detok ts

theorem string_mk_append (a b : List Char) :
    String.mk a ++ String.mk b = String.mk (a ++ b) := rfl

theorem string_mk_data (s : String) : String.mk s.data = s := by
  cases s
  rfl

theorem joinAll_append (l₁ l₂ : List String) :
    joinAll (l₁ ++ l₂) = joinAll l₁ ++ joinAll l₂ := by
  induction l₁ with
  | nil => simp [joinAll]
  | cons s rest ih => simp [joinAll, ih, String.append_assoc]

theorem startsWith_eq : ∀ (p l : List Char),
    startsWith p l = true → l = p ++ l.drop p.length := by
  intro p
  induction p with
  | nil => intro l _; simp
  | cons a ps ih =>
    intro l h
    cases l with
    | nil => simp [startsWith] at h
    | cons c cs =>
      simp only [startsWith, Bool.and_eq_true, beq_iff_eq] at h
      obtain ⟨rfl, h2⟩ := h
      have := ih cs h2
      simpa using congrArg (a :: ·) this

theorem detok_tokenizeF : ∀ (fuel : Nat) (cs : List Char),
    cs.length ≤ fuel → detok (tokenizeF fuel cs) = cs := by
  intro fuel
  induction fuel with
  | zero =>
    intro cs h
    have : cs = [] := List.length_eq_zero.mp (Nat.le_zero.mp h)
    subst this
    rfl
  | succ f ih =>
    intro cs h
    cases cs with
    | nil => rfl
    | cons c cs =>
      by_cases hF : startsWith fileTagChars (c :: cs) = true
      · have hsplit := startsWith_eq _ _ hF
        have hlen : fileTagChars.length = 20 := by decide
        rw [hlen] at hsplit
        simp only [List.drop_succ_cons] at hsplit
        simp only [tokenizeF, hF, if_true, detok]
        rw [ih (cs.drop 19) ?_]
        · exact hsplit.symm
        · have h1 : (cs.drop 19).length ≤ cs.length := by
            rw [List.length_drop]; omega
          have h2 : cs.length ≤ f := by simpa using Nat.succ_le_succ_iff.mp h
          exact Nat.le_trans h1 h2
      · by_cases hI : startsWith inputTagChars (c :: cs) = true
        · have hsplit := startsWith_eq _ _ hI
          have hlen : inputTagChars.length = 21 := by decide
          rw [hlen] at hsplit
          simp only [List.drop_succ_cons] at hsplit
          simp only [tokenizeF, hF, hI, if_true, if_false, detok]
          rw [ih (cs.drop 20) ?_]
          · exact hsplit.symm
          · have h1 : (cs.drop 20).length ≤ cs.length := by
              rw [List.length_drop]; omega
            have h2 : cs.length ≤ f := by simpa using Nat.succ_le_succ_iff.mp h
            exact Nat.le_trans h1 h2
        · simp only [tokenizeF, hF, hI, if_false, detok]
          rw [ih cs (by simpa using Nat.succ_le_succ_iff.mp h)]

theorem reconstruct_flushText (acc : List Char) :
    reconstructSegments (flushText acc) = String.mk acc := by
  by_cases hacc : acc.isEmpty
  · have : acc = [] := by simpa [List.isEmpty_iff] using hacc
    subst this
    rfl
  · simp [flushText, hacc, reconstructSegments, joinAll, segmentLiteral,
      String.append_empty]

theorem reconstructSegments_append (l₁ l₂ : List Segment) :
    reconstructSegments (l₁ ++ l₂) =
      reconstructSegments l₁ ++ reconstructSegments l₂ := by
  simp [reconstructSegments, joinAll_append]

theorem reconstruct_segmentsOfToks : ∀ (ts : List Tok) (acc : List Char)
    (counter : Nat),
    reconstructSegments (segmentsOfToks acc counter ts) =
      String.mk (acc ++ detok ts) := by
  intro ts
  induction ts with
  | nil =>
    intro acc counter
    simp [segmentsOfToks, detok, reconstruct_flushText]
  | cons t ts ih =>
    intro acc counter
    cases t with
    | chr c =>
      simp only [segmentsOfToks, detok, ih]
      simp [List.append_assoc]
    | ftag =>
      simp only [segmentsOfToks, detok, reconstructSegments_append,
        reconstruct_flushText]
      have : reconstructSegments
          (Segment.fileSelector ("file-" ++ Nat.repr counter) ::
            segmentsOfToks [] (counter + 1) ts) =
          String.mk fileTagChars ++ String.mk (detok ts) := by
        simp only [reconstructSegments, List.map_cons, joinAll]
        rw [show joinAll (List.map segmentLiteral
            (segmentsOfToks [] (counter + 1) ts)) =
          reconstructSegments (segmentsOfToks [] (counter + 1) ts) from rfl]
        rw [ih [] (counter + 1)]
        rfl
      rw [this, string_mk_append, string_mk_append]
    | itag =>
      simp only [segmentsOfToks, detok, reconstructSegments_append,
        reconstruct_flushText]
      have : reconstructSegments
          (Segment.input ("input-" ++ Nat.repr counter) ::
            segmentsOfToks [] (counter + 1) ts) =
          String.mk inputTagChars ++ String.mk (detok ts) := by
        simp only [reconstructSegments, List.map_cons, joinAll]
        rw [show joinAll (List.map segmentLiteral
            (segmentsOfToks [] (counter + 1) ts)) =
          reconstructSegments (segmentsOfToks [] (counter + 1) ts) from rfl]
        rw [ih [] (counter + 1)]
        rfl
      rw [this, string_mk_append, string_mk_append]

theorem tokenizeF_no_tags : ∀ (fuel : Nat) (cs : List Char),
    cs.length ≤ fuel → occursIn fileTagChars cs = false →
    occursIn inputTagChars cs = false →
    tokenizeF fuel cs = cs.map Tok.chr := by
  intro fuel
  induction fuel with
  | zero =>
    intro cs h _ _
    have : cs = [] := List.length_eq_zero.mp (Nat.le_zero.mp h)
    subst this
    rfl
  | succ f ih =>
    intro cs h hf hi
    cases cs with
    | nil => rfl
    | cons c cs =>
      simp only [occursIn, Bool.or_eq_false_iff] at hf hi
      simp only [tokenizeF, hf.1, hi.1, Bool.false_eq_true, if_false,
        List.map_cons]
      rw [ih cs (by simpa using Nat.succ_le_succ_iff.mp h) hf.2 hi.2]

theorem segmentsOfToks_all_chr : ∀ (cs acc : List Char) (counter : Nat),
    segmentsOfToks acc counter (cs.map Tok.chr) = flushText (acc ++ cs) := by
  intro cs
  induction cs with
  | nil => intro acc counter; simp [segmentsOfToks]
  | cons c cs ih =>
    intro acc counter
    simp only [List.map_cons, segmentsOfToks]
    rw [ih (acc ++ [c]) counter, List.append_assoc]
    rfl

/-- Claim C3: scanning is deterministic, and concatenating the segment
contents with the tag literals re-inserted at slot positions
reconstructs the template exactly. -/
theorem parseTemplate_roundtrip (t : String) :
    parseTemplate t = parseTemplate t ∧
      reconstructSegments (parseTemplate t) = t := by
  refine ⟨rfl, ?_⟩
  show reconstructSegments (segmentsOfToks [] 0 (tokenize t.data)) = t
  rw [reconstruct_segmentsOfToks]
  show String.mk ([] ++ detok (tokenizeF t.data.length t.data)) = t
  rw [detok_tokenizeF t.data.length t.data (Nat.le_refl _), List.nil_append,
    string_mk_data]

/-- Counterexample for claim C7: on the empty template — which contains neither
tag literal — `parseTemplate` returns the empty segment list, not a
single text segment equal to the template. -/
theorem parseTemplate_empty_counterexample :
    parseTemplate "" = [] ∧ parseTemplate "" ≠ [Segment.markdown ""] := by
  exact ⟨by decide, by decide⟩

/-- Claim C7 as amended: for every non-empty template containing neither tag
literal, the scan yields one text segment equal to the template, and
composing it against any store returns the template unchanged. -/
theorem parseTemplate_no_tags (t : String)
    (files : List (String × List FileDataWithHandle))
    (inputs : List (String × String))
    (hf : occursIn fileTagChars t.data = false)
    (hi : occursIn inputTagChars t.data = false)
    (hne : t ≠ "") :
    parseTemplate t = [Segment.markdown t] ∧
      composeSegments files inputs (parseTemplate t) = t := by
  have hdata : ¬t.data.isEmpty = true := by
    intro h
    apply hne
    cases t with
    | mk l =>
      simp only [List.isEmpty_iff] at h
      simp only [h]
  have hparse : parseTemplate t = [Segment.markdown t] := by
    show segmentsOfToks [] 0 (tokenize t.data) = _
    show segmentsOfToks [] 0 (tokenizeF t.data.length t.data) = _
    rw [tokenizeF_no_tags t.data.length t.data (Nat.le_refl _) hf hi,
      segmentsOfToks_all_chr, List.nil_append, flushText]
    simp [hdata, string_mk_data]
  refine ⟨hparse, ?_⟩
  rw [hparse]
  simp [composeSegments, segmentOutput, joinAll, String.append_empty]

/-- Witness for claim C7, applying `parseTemplate_no_tags`. -/
theorem parseTemplate_no_tags_witness :
    parseTemplate "hello" = [Segment.markdown "hello"] ∧
      composeSegments [] [] (parseTemplate "hello") = "hello" :=
  parseTemplate_no_tags "hello" [] [] (by decide) (by decide) (by decide)

/-! ### Injectivity of the decimal id suffix

The slot ids embed the counter via `Nat.repr`; these lemmas show the
decimal representation is injective, by parsing it back. -/

/-- Numeric value of a decimal digit character. -/
def digitVal (c : Char) : Nat := c.toNat - 48

/-- Value of a decimal digit string (most significant first). -/
def decVal (l : List Char) : Nat :=
  l.foldl (fun a c => 10 * a + digitVal c) 0

theorem decVal_concat (xs : List Char) (c : Char) :
    decVal (xs ++ [c]) = 10 * decVal xs + digitVal c := by
  simp [decVal, List.foldl_append]

theorem digitVal_digitChar (n : Nat) (h : n < 10) :
    digitVal (Nat.digitChar n) = n := by
  interval_cases n <;> decide

theorem toDigitsCore_acc (b : Nat) : ∀ (f n : Nat) (ds : List Char),
    Nat.toDigitsCore b f n ds = Nat.toDigitsCore b f n [] ++ ds := by
  intro f
  induction f with
  | zero => intro n ds; rfl
  | succ f ih =>
    intro n ds
    simp only [Nat.toDigitsCore]
    by_cases h : n / b = 0
    · simp [h]
    · simp only [h, if_false]
      rw [ih (n / b) (Nat.digitChar (n % b) :: ds),
        ih (n / b) [Nat.digitChar (n % b)], List.append_assoc]
      rfl

theorem decVal_toDigitsCore : ∀ (f n : Nat), n < f →
    decVal (Nat.toDigitsCore 10 f n []) = n := by
  intro f
  induction f with
  | zero => intro n h; omega
  | succ f ih =>
    intro n h
    simp only [Nat.toDigitsCore]
    by_cases hdiv : n / 10 = 0
    · have hlt : n < 10 := by omega
      simp only [hdiv, if_true, Nat.mod_eq_of_lt hlt]
      show decVal ([] ++ [Nat.digitChar n]) = n
      rw [decVal_concat]
      simp [decVal, digitVal_digitChar n hlt]
    · simp only [hdiv, if_false]
      rw [toDigitsCore_acc, decVal_concat,
        ih (n / 10) (by omega),
        digitVal_digitChar (n % 10) (Nat.mod_lt n (by omega))]
      omega

theorem natRepr_injective : Function.Injective Nat.repr := by
  intro m n h
  have hdig : Nat.toDigits 10 m = Nat.toDigits 10 n := by
    have := congrArg String.data h
    simpa [Nat.repr, List.asString] using this
  have hm := decVal_toDigitsCore (m + 1) m (Nat.lt_succ_self m)
  have hn := decVal_toDigitsCore (n + 1) n (Nat.lt_succ_self n)
  rw [show Nat.toDigits 10 m = Nat.toDigitsCore 10 (m + 1) m [] from rfl,
    show Nat.toDigits 10 n = Nat.toDigitsCore 10 (n + 1) n [] from rfl] at hdig
  rw [← hm, ← hn, hdig]

theorem string_append_left_cancel {s a b : String}
    (h : s ++ a = s ++ b) : a = b := by
  have hd := congrArg String.data h
  simp only [String.data_append] at hd
  have := List.append_cancel_left hd
  cases a
  cases b
  exact congrArg String.mk (by simpa using this)

theorem prefixed_repr_injective (p : String) {m n : Nat}
    (h : p ++ Nat.repr m = p ++ Nat.repr n) : m = n :=
  natRepr_injective (string_append_left_cancel h)

/-! ### Slot-id lemmas (C4, C9) -/

/-- Whether a segment is a slot (file or input) rather than text. -/
def isSlot : Segment → Bool
  | Segment.markdown _ => false
  | Segment.fileSelector _ => true
  | Segment.input _ => true

/-- The slot segments of a segment list, in order. -/
def slotSegments (segs : List Segment) : List Segment := segs.filter isSlot

/-- The ids of the fileSlot segments, in order. -/
def fileSlotIds (segs : List Segment) : List String :=
  segs.filterMap fun s =>
    match s with
    | Segment.fileSelector id => some id
    | _ => none

/-- The ids of the inputSlot segments, in order. -/
def inputSlotIds (segs : List Segment) : List String :=
  segs.filterMap fun s =>
    match s with
    | Segment.input id => some id
    | _ => none

/-- The slot segments produced from a token stream when the shared
counter starts at `n`. -/
def slotsOfToks : Nat → List Tok → List Segment
  | _, [] => []
  | n, Tok.chr _ :: ts => slotsOfToks n ts
  | n, Tok.ftag :: ts =>
    Segment.fileSelector ("file-" ++ Nat.repr n) :: slotsOfToks (n + 1) ts
  | n, Tok.itag :: ts =>
    Segment.input ("input-" ++ Nat.repr n) :: slotsOfToks (n + 1) ts

theorem slotSegments_flushText (acc : List Char) :
    slotSegments (flushText acc) = [] := by
  by_cases h : acc.isEmpty <;> simp [flushText, h, slotSegments, isSlot]

theorem slotSegments_segmentsOfToks : ∀ (ts : List Tok) (acc : List Char)
    (n : Nat), slotSegments (segmentsOfToks acc n ts) = slotsOfToks n ts := by
  intro ts
  induction ts with
  | nil => intro acc n; simpa [segmentsOfToks, slotsOfToks] using
      slotSegments_flushText acc
  | cons t ts ih =>
    intro acc n
    cases t with
    | chr c => simp only [segmentsOfToks, slotsOfToks]; exact ih _ n
    | ftag =>
      simp only [segmentsOfToks, slotsOfToks, slotSegments, List.filter_append]
      rw [show List.filter isSlot (flushText acc) =
        slotSegments (flushText acc) from rfl, slotSegments_flushText]
      simp only [List.filter_cons, List.nil_append]
      rw [show (isSlot (Segment.fileSelector ("file-" ++ Nat.repr n))) =
        true from rfl]
      simp only [if_true]
      exact congrArg _ (ih [] (n + 1))
    | itag =>
      simp only [segmentsOfToks, slotsOfToks, slotSegments, List.filter_append]
      rw [show List.filter isSlot (flushText acc) =
        slotSegments (flushText acc) from rfl, slotSegments_flushText]
      simp only [List.filter_cons, List.nil_append]
      rw [show (isSlot (Segment.input ("input-" ++ Nat.repr n))) =
        true from rfl]
      simp only [if_true]
      exact congrArg _ (ih [] (n + 1))

theorem slotsOfToks_get : ∀ (ts : List Tok) (n j : Nat) (s : Segment),
    (slotsOfToks n ts)[j]? = some s →
    s = Segment.fileSelector ("file-" ++ Nat.repr (n + j)) ∨
      s = Segment.input ("input-" ++ Nat.repr (n + j)) := by
  intro ts
  induction ts with
  | nil => intro n j s h; simp [slotsOfToks] at h
  | cons t ts ih =>
    intro n j s h
    cases t with
    | chr c => exact ih n j s h
    | ftag =>
      cases j with
      | zero =>
        left
        simp only [slotsOfToks, List.getElem?_cons_zero, Option.some_inj] at h
        simp [← h]
      | succ j =>
        have := ih (n + 1) j s (by simpa [slotsOfToks] using h)
        have harith : n + 1 + j = n + (j + 1) := by omega
        rw [harith] at this
        exact this
    | itag =>
      cases j with
      | zero =>
        right
        simp only [slotsOfToks, List.getElem?_cons_zero, Option.some_inj] at h
        simp [← h]
      | succ j =>
        have := ih (n + 1) j s (by simpa [slotsOfToks] using h)
        have harith : n + 1 + j = n + (j + 1) := by omega
        rw [harith] at this
        exact this

/-- The ids handed to fileSlot segments from a token stream, counter
starting at `n`. -/
def fileIdsToks : Nat → List Tok → List String
  | _, [] => []
  | n, Tok.chr _ :: ts => fileIdsToks n ts
  | n, Tok.ftag :: ts => ("file-" ++ Nat.repr n) :: fileIdsToks (n + 1) ts
  | n, Tok.itag :: ts => fileIdsToks (n + 1) ts

/-- The ids handed to inputSlot segments from a token stream. -/
def inputIdsToks : Nat → List Tok → List String
  | _, [] => []
  | n, Tok.chr _ :: ts => inputIdsToks n ts
  | n, Tok.ftag :: ts => inputIdsToks (n + 1) ts
  | n, Tok.itag :: ts => ("input-" ++ Nat.repr n) :: inputIdsToks (n + 1) ts

theorem fileSlotIds_flushText (acc : List Char) :
    fileSlotIds (flushText acc) = [] := by
  by_cases h : acc.isEmpty <;> simp [flushText, h, fileSlotIds]

theorem inputSlotIds_flushText (acc : List Char) :
    inputSlotIds (flushText acc) = [] := by
  by_cases h : acc.isEmpty <;> simp [flushText, h, inputSlotIds]

theorem fileSlotIds_segmentsOfToks : ∀ (ts : List Tok) (acc : List Char)
    (n : Nat), fileSlotIds (segmentsOfToks acc n ts) = fileIdsToks n ts := by
  intro ts
  induction ts with
  | nil => intro acc n; simpa [segmentsOfToks, fileIdsToks] using
      fileSlotIds_flushText acc
  | cons t ts ih =>
    intro acc n
    cases t with
    | chr c => simp only [segmentsOfToks, fileIdsToks]; exact ih _ n
    | ftag =>
      simp only [segmentsOfToks, fileIdsToks, fileSlotIds,
        List.filterMap_append, List.filterMap_cons]
      rw [show List.filterMap _ (flushText acc) =
        fileSlotIds (flushText acc) from rfl, fileSlotIds_flushText]
      simp only [List.nil_append]
      exact congrArg _ (ih [] (n + 1))
    | itag =>
      simp only [segmentsOfToks, fileIdsToks, fileSlotIds,
        List.filterMap_append, List.filterMap_cons]
      rw [show List.filterMap _ (flushText acc) =
        fileSlotIds (flushText acc) from rfl, fileSlotIds_flushText]
      simp only [List.nil_append]
      exact ih [] (n + 1)

theorem inputSlotIds_segmentsOfToks : ∀ (ts : List Tok) (acc : List Char)
    (n : Nat), inputSlotIds (segmentsOfToks acc n ts) = inputIdsToks n ts := by
  intro ts
  induction ts with
  | nil => intro acc n; simpa [segmentsOfToks, inputIdsToks] using
      inputSlotIds_flushText acc
  | cons t ts ih =>
    intro acc n
    cases t with
    | chr c => simp only [segmentsOfToks, inputIdsToks]; exact ih _ n
    | ftag =>
      simp only [segmentsOfToks, inputIdsToks, inputSlotIds,
        List.filterMap_append, List.filterMap_cons]
      rw [show List.filterMap _ (flushText acc) =
        inputSlotIds (flushText acc) from rfl, inputSlotIds_flushText]
      simp only [List.nil_append]
      exact ih [] (n + 1)
    | itag =>
      simp only [segmentsOfToks, inputIdsToks, inputSlotIds,
        List.filterMap_append, List.filterMap_cons]
      rw [show List.filterMap _ (flushText acc) =
        inputSlotIds (flushText acc) from rfl, inputSlotIds_flushText]
      simp only [List.nil_append]
      exact congrArg _ (ih [] (n + 1))

theorem fileIdsToks_mem : ∀ (ts : List Tok) (n : Nat) (id : String),
    id ∈ fileIdsToks n ts → ∃ m, n ≤ m ∧ id = "file-" ++ Nat.repr m := by
  intro ts
  induction ts with
  | nil => intro n id h; simp [fileIdsToks] at h
  | cons t ts ih =>
    intro n id h
    cases t with
    | chr c =>
      exact ih n id h
    | ftag =>
      simp only [fileIdsToks, List.mem_cons] at h
      rcases h with h | h
      · exact ⟨n, Nat.le_refl n, h⟩
      · obtain ⟨m, hm, hid⟩ := ih (n + 1) id h
        exact ⟨m, by omega, hid⟩
    | itag =>
      obtain ⟨m, hm, hid⟩ := ih (n + 1) id h
      exact ⟨m, by omega, hid⟩

theorem inputIdsToks_mem : ∀ (ts : List Tok) (n : Nat) (id : String),
    id ∈ inputIdsToks n ts → ∃ m, n ≤ m ∧ id = "input-" ++ Nat.repr m := by
  intro ts
  induction ts with
  | nil => intro n id h; simp [inputIdsToks] at h
  | cons t ts ih =>
    intro n id h
    cases t with
    | chr c =>
      exact ih n id h
    | ftag =>
      obtain ⟨m, hm, hid⟩ := ih (n + 1) id h
      exact ⟨m, by omega, hid⟩
    | itag =>
      simp only [inputIdsToks, List.mem_cons] at h
      rcases h with h | h
      · exact ⟨n, Nat.le_refl n, h⟩
      · obtain ⟨m, hm, hid⟩ := ih (n + 1) id h
        exact ⟨m, by omega, hid⟩

theorem fileIdsToks_nodup : ∀ (ts : List Tok) (n : Nat),
    (fileIdsToks n ts).Nodup := by
  intro ts
  induction ts with
  | nil => intro n; simp [fileIdsToks]
  | cons t ts ih =>
    intro n
    cases t with
    | chr c => exact ih n
    | itag => exact ih (n + 1)
    | ftag =>
      refine List.Nodup.cons ?_ (ih (n + 1))
      intro hmem
      obtain ⟨m, hm, hid⟩ := fileIdsToks_mem ts (n + 1) _ hmem
      have : n = m := prefixed_repr_injective "file-" hid
      omega

theorem inputIdsToks_nodup : ∀ (ts : List Tok) (n : Nat),
    (inputIdsToks n ts).Nodup := by
  intro ts
  induction ts with
  | nil => intro n; simp [inputIdsToks]
  | cons t ts ih =>
    intro n
    cases t with
    | chr c => exact ih n
    | ftag => exact ih (n + 1)
    | itag =>
      refine List.Nodup.cons ?_ (ih (n + 1))
      intro hmem
      obtain ⟨m, hm, hid⟩ := inputIdsToks_mem ts (n + 1) _ hmem
      have : n = m := prefixed_repr_injective "input-" hid
      omega

/-- Claim C9: for every template, the fileSlot ids of the scan are pairwise
distinct, and so are the inputSlot ids. -/
theorem parseTemplate_slot_ids_nodup (t : String) :
    (fileSlotIds (parseTemplate t)).Nodup ∧
      (inputSlotIds (parseTemplate t)).Nodup := by
  constructor
  · rw [show fileSlotIds (parseTemplate t) =
      fileIdsToks 0 (tokenize t.data) from
        fileSlotIds_segmentsOfToks (tokenize t.data) [] 0]
    exact fileIdsToks_nodup (tokenize t.data) 0
  · rw [show inputSlotIds (parseTemplate t) =
      inputIdsToks 0 (tokenize t.data) from
        inputSlotIds_segmentsOfToks (tokenize t.data) [] 0]
    exact inputIdsToks_nodup (tokenize t.data) 0

/-- Counterexample for claim C4: with an input tag before a file tag, the first
(0th) fileSlot of the scan carries id `"file-1"`, not `"file-0"` —
the counter is shared across both slot types. -/
theorem parseTemplate_per_type_ids_counterexample :
    fileSlotIds (parseTemplate "<superpromptor-input><superpromptor-file>") =
        ["file-1"] ∧ ("file-1" : String) ≠ "file-0" := by
  exact ⟨by decide, by decide⟩

/-- Claim C4 as amended: ids come from one counter shared by both slot
types, incremented once per slot in encounter order and restarting at
zero each scan: the j-th slot segment overall (counting from zero) has
id `"file-<j>"` when it is a fileSlot and `"input-<j>"` when it is an
inputSlot. -/
theorem parseTemplate_slot_ids_shared_counter (t : String) (j : Nat)
    (s : Segment) (h : (slotSegments (parseTemplate t))[j]? = some s) :
    s = Segment.fileSelector ("file-" ++ Nat.repr j) ∨
      s = Segment.input ("input-" ++ Nat.repr j) := by
  rw [show slotSegments (parseTemplate t) =
    slotsOfToks 0 (tokenize t.data) from
      slotSegments_segmentsOfToks (tokenize t.data) [] 0] at h
  simpa using slotsOfToks_get (tokenize t.data) 0 j s h

/-- Witness for claim C4, applying `parseTemplate_slot_ids_shared_counter`. -/
theorem parseTemplate_slot_ids_shared_counter_witness :
    (slotSegments
        (parseTemplate "<superpromptor-input><superpromptor-file>"))[1]? =
      some (Segment.fileSelector "file-1") ∧
    (Segment.fileSelector "file-1" =
        Segment.fileSelector ("file-" ++ Nat.repr 1) ∨
      Segment.fileSelector "file-1" = Segment.input ("input-" ++ Nat.repr 1)) :=
  ⟨by decide,
    parseTemplate_slot_ids_shared_counter
      "<superpromptor-input><superpromptor-file>" 1
      (Segment.fileSelector "file-1") (by decide)⟩

/-! ### Output composer (C2) -/

/-- Claim C2: the composer maps each segment independently and concatenates
the outputs in original order with no added separators and no
trailing normalization: the empty segment list composes to `""`; a
text segment contributes its literal content; a fileSlot contributes
the concatenation, in list order, of `"-- " + path + " --\n" +
contents + "\n"` over the records bound to its id (nothing when
unbound); an inputSlot contributes its bound value (nothing when
unbound). -/
theorem composeSegments_segmentwise
    (files : List (String × List FileDataWithHandle))
    (inputs : List (String × String)) :
    composeSegments files inputs [] = "" ∧
    (∀ (c : String) (rest : List Segment),
      composeSegments files inputs (Segment.markdown c :: rest) =
        c ++ composeSegments files inputs rest) ∧
    (∀ (id : String) (rest : List Segment),
      composeSegments files inputs (Segment.fileSelector id :: rest) =
        joinAll (((mapGet files id).getD []).map fileBlock) ++
          composeSegments files inputs rest) ∧
    (∀ (id : String) (f : FileDataWithHandle) (fs : List FileDataWithHandle)
      (rest : List Segment), mapGet files id = some (f :: fs) →
      composeSegments files inputs (Segment.fileSelector id :: rest) =
        ("-- " ++ f.path ++ " --\n" ++ f.contents ++ "\n") ++
          (joinAll (fs.map fileBlock) ++ composeSegments files inputs rest)) ∧
    (∀ (id : String) (rest : List Segment), mapGet files id = none →
      composeSegments files inputs (Segment.fileSelector id :: rest) =
        composeSegments files inputs rest) ∧
    (∀ (id : String) (rest : List Segment),
      composeSegments files inputs (Segment.input id :: rest) =
        (mapGet inputs id).getD "" ++ composeSegments files inputs rest) ∧
    (∀ (id : String) (rest : List Segment), mapGet inputs id = none →
      composeSegments files inputs (Segment.input id :: rest) =
        composeSegments files inputs rest) := by
  refine ⟨rfl, fun c rest => rfl, fun id rest => rfl, ?_, ?_, fun id rest => rfl, ?_⟩
  · intro id f fs rest h
    show joinAll (((mapGet files id).getD []).map fileBlock) ++ _ = _
    rw [h]
    simp only [Option.getD_some, List.map_cons, joinAll, fileBlock,
      String.append_assoc]
    rfl
  · intro id rest h
    show joinAll (((mapGet files id).getD []).map fileBlock) ++ _ = _
    rw [h]
    show joinAll [] ++ _ = _
    show "" ++ _ = _
    rw [String.empty_append]
    rfl
  · intro id rest h
    show (mapGet inputs id).getD "" ++ _ = _
    rw [h]
    show "" ++ _ = _
    rw [String.empty_append]
    rfl

/-- Witness for claim C2, applying `composeSegments_segmentwise` at concrete inputs. -/
theorem composeSegments_segmentwise_witness :
    mapGet ([("file-0", [⟨"a.txt", 2, "hi", none⟩])] :
        List (String × List FileDataWithHandle)) "file-0" =
      some [⟨"a.txt", 2, "hi", none⟩] ∧
    composeSegments [("file-0", [⟨"a.txt", 2, "hi", none⟩])] []
        (Segment.fileSelector "file-0" :: [Segment.markdown "End"]) =
      ("-- " ++ "a.txt" ++ " --\n" ++ "hi" ++ "\n") ++
        (joinAll (([] : List FileDataWithHandle).map fileBlock) ++
          composeSegments [("file-0", [⟨"a.txt", 2, "hi", none⟩])] []
            [Segment.markdown "End"]) :=
  ⟨by decide,
    (composeSegments_segmentwise [("file-0", [⟨"a.txt", 2, "hi", none⟩])]
        []).2.2.2.1 "file-0" ⟨"a.txt", 2, "hi", none⟩ []
      [Segment.markdown "End"] (by decide)⟩

/-! ### Refresh reconciler theorems (C1, C6, C8) -/

theorem mem_joinLists {α : Type} {x : α} : ∀ {L : List (List α)},
    x ∈ joinLists L ↔ ∃ l, l ∈ L ∧ x ∈ l := by
  intro L
  induction L with
  | nil => simp [joinLists]
  | cons l L ih =>
    simp only [joinLists, List.mem_append, ih, List.mem_cons]
    constructor
    · rintro (hx | ⟨l', hl', hx⟩)
      · exact ⟨l, Or.inl rfl, hx⟩
      · exact ⟨l', Or.inr hl', hx⟩
    · rintro ⟨l', hl' | hl', hx⟩
      · subst hl'; exact Or.inl hx
      · exact Or.inr ⟨l', hl', hx⟩

theorem error_mem_refreshErrors (fs : Nat → Option (Nat × String))
    (files : List (String × List FileDataWithHandle)) (tag : String)
    (l : List FileDataWithHandle) (fd : FileDataWithHandle) (h : Nat)
    (hmem : (tag, l) ∈ files) (hfd : fd ∈ l) (hh : fd.handle = some h)
    (hfail : fs h = none) :
    ("Failed to refresh file: " ++ fd.path) ∈ refreshErrors fs files := by
  have herr : recordRefreshErrors fs fd =
      ["Failed to refresh file: " ++ fd.path] := by
    simp [recordRefreshErrors, hh, hfail]
  apply mem_joinLists.mpr
  refine ⟨joinLists (l.map (recordRefreshErrors fs)), ?_, ?_⟩
  · exact List.mem_map_of_mem (fun p => joinLists
      (p.2.map (recordRefreshErrors fs))) hmem
  · apply mem_joinLists.mpr
    refine ⟨recordRefreshErrors fs fd,
      List.mem_map_of_mem (recordRefreshErrors fs) hfd, ?_⟩
    rw [herr]
    exact List.mem_singleton_self _

/-- Claim C6: if a bound file's re-read through its live handle fails during
a refresh pass, its record in the resulting store is the input record
unchanged (path, size, contents and handle preserved), the record is
not dropped from its slot's list (same length, same record present),
and a per-file error for its path is reported. -/
theorem refresh_failure_preserves_record (tfs : Nat → Option String)
    (fs : Nat → Option (Nat × String)) (st : State) (tag : String)
    (l : List FileDataWithHandle) (fd : FileDataWithHandle) (h : Nat)
    (hmem : (tag, l) ∈ st.files) (hfd : fd ∈ l)
    (hh : fd.handle = some h) (hfail : fs h = none) :
    refreshRecord fs fd = fd ∧
    recordRefreshErrors fs fd = ["Failed to refresh file: " ++ fd.path] ∧
    ("Failed to refresh file: " ++ fd.path) ∈
      (handleRefresh tfs fs none st).fileErrors ∧
    (tag, l.map (refreshRecord fs)) ∈
      (handleRefresh tfs fs none st).state.files ∧
    fd ∈ l.map (refreshRecord fs) ∧
    (l.map (refreshRecord fs)).length = l.length := by
  have hrec : refreshRecord fs fd = fd := by
    simp [refreshRecord, hh, hfail]
  refine ⟨hrec, by simp [recordRefreshErrors, hh, hfail], ?_, ?_, ?_, ?_⟩
  · show _ ∈ refreshErrors fs st.files
    exact error_mem_refreshErrors fs st.files tag l fd h hmem hfd hh hfail
  · show _ ∈ refreshFiles fs st.files
    exact List.mem_map_of_mem (fun p => (p.1, p.2.map (refreshRecord fs))) hmem
  · rw [← hrec]
    exact List.mem_map_of_mem (refreshRecord fs) hfd
  · exact List.length_map l (refreshRecord fs)

/-- Witness for claim C6, applying `refresh_failure_preserves_record`. -/
theorem refresh_failure_preserves_record_witness :
    refreshRecord (fun _ => none) ⟨"a.txt", 3, "old", some 1⟩ =
        ⟨"a.txt", 3, "old", some 1⟩ ∧
    recordRefreshErrors (fun _ => none) ⟨"a.txt", 3, "old", some 1⟩ =
        ["Failed to refresh file: " ++ "a.txt"] ∧
    ("Failed to refresh file: " ++ "a.txt") ∈
      (handleRefresh (fun _ => none) (fun _ => none) none
        ⟨[], [("file-0", [⟨"a.txt", 3, "old", some 1⟩])], []⟩).fileErrors ∧
    ("file-0", [⟨"a.txt", 3, "old", some 1⟩].map
        (refreshRecord (fun _ => none))) ∈
      (handleRefresh (fun _ => none) (fun _ => none) none
        ⟨[], [("file-0", [⟨"a.txt", 3, "old", some 1⟩])], []⟩).state.files ∧
    (⟨"a.txt", 3, "old", some 1⟩ : FileDataWithHandle) ∈
      [⟨"a.txt", 3, "old", some 1⟩].map (refreshRecord (fun _ => none)) ∧
    ([(⟨"a.txt", 3, "old", some 1⟩ : FileDataWithHandle)].map
        (refreshRecord (fun _ => none))).length = 1 :=
  refresh_failure_preserves_record (fun _ => none) (fun _ => none)
    ⟨[], [("file-0", [⟨"a.txt", 3, "old", some 1⟩])], []⟩ "file-0"
    [⟨"a.txt", 3, "old", some 1⟩] ⟨"a.txt", 3, "old", some 1⟩ 1
    (List.mem_singleton_self _) (List.mem_singleton_self _) rfl rfl

/-- Claim C8: a successful re-read replaces only `size` and `contents`,
keeping `path` and the handle; records with no handle pass through
unchanged; and refresh never modifies any input-slot value, in every
branch of `handleRefresh`. -/
theorem refresh_success_frame (tfs : Nat → Option String)
    (fs : Nat → Option (Nat × String)) (templateHandle : Option Nat)
    (st : State) (fd : FileDataWithHandle) (h sz : Nat) (cts : String) :
    (fd.handle = some h → fs h = some (sz, cts) →
      refreshRecord fs fd = { fd with size := sz, contents := cts } ∧
      (refreshRecord fs fd).path = fd.path ∧
      (refreshRecord fs fd).handle = fd.handle) ∧
    (fd.handle = none → refreshRecord fs fd = fd) ∧
    (handleRefresh tfs fs templateHandle st).state.inputs = st.inputs := by
  refine ⟨?_, ?_, ?_⟩
  · intro h1 h2
    refine ⟨by simp [refreshRecord, h1, h2], ?_, ?_⟩ <;>
      simp [refreshRecord, h1, h2]
  · intro h1
    simp [refreshRecord, h1]
  · cases templateHandle with
    | none => rfl
    | some th =>
      cases htfs : tfs th with
      | none => simp [handleRefresh, htfs]
      | some content => simp [handleRefresh, htfs]

/-- Witness for claim C8, applying `refresh_success_frame`. -/
theorem refresh_success_frame_witness :
    (refreshRecord (fun _ => some (2, "y")) ⟨"a", 1, "x", some 0⟩ =
        { path := "a", size := 2, contents := "y", handle := some 0 } ∧
      (refreshRecord (fun _ => some (2, "y")) ⟨"a", 1, "x", some 0⟩).path =
        "a" ∧
      (refreshRecord (fun _ => some (2, "y")) ⟨"a", 1, "x", some 0⟩).handle =
        some 0) ∧
    (handleRefresh (fun _ => none) (fun _ => some (2, "y")) none
        ⟨[], [], [("input-0", "v")]⟩).state.inputs = [("input-0", "v")] :=
  ⟨(refresh_success_frame (fun _ => none) (fun _ => some (2, "y")) none
      ⟨[], [], [("input-0", "v")]⟩ ⟨"a", 1, "x", some 0⟩ 0 2 "y").1 rfl rfl,
    (refresh_success_frame (fun _ => none) (fun _ => some (2, "y")) none
      ⟨[], [], [("input-0", "v")]⟩ ⟨"a", 1, "x", some 0⟩ 0 2 "y").2.2⟩

/-- Counterexample for claim C1: with a template handle whose re-read fails and
a selected file whose handle would re-read successfully (to size 5,
contents `"new"`), `handleRefresh` leaves the store untouched and
reports no file refresh and no per-file error — the file-refresh half
did not proceed, contradicting the claimed independence. -/
theorem handleRefresh_template_failure_counterexample :
    handleRefresh (fun _ => none) (fun _ => some (5, "new")) (some 0)
        ⟨[], [("file-0", [⟨"a.txt", 3, "old", some 1⟩])], []⟩ =
      { state := ⟨[], [("file-0", [⟨"a.txt", 3, "old", some 1⟩])], []⟩,
        templateRefreshed := false, filesRefreshed := false,
        fileErrors := [], fatal := true } ∧
    refreshRecord (fun _ => some (5, "new")) ⟨"a.txt", 3, "old", some 1⟩ =
      ⟨"a.txt", 5, "new", some 1⟩ :=
  ⟨rfl, rfl⟩

/-- Claim C1 as amended: a template re-read failure escapes to the single
outer catch and aborts the whole refresh pass — the file-refresh half
is skipped, the store is unchanged, no per-file error is collected and
one catch-all failure is surfaced.  When the file-refresh half does
run (no template handle, or the template re-read succeeds), per-file
read failures are collected individually and are never fatal. -/
theorem handleRefresh_template_failure_aborts (tfs : Nat → Option String)
    (fs : Nat → Option (Nat × String)) (st : State) :
    (∀ h, tfs h = none →
      handleRefresh tfs fs (some h) st =
        { state := st, templateRefreshed := false, filesRefreshed := false,
          fileErrors := [], fatal := true }) ∧
    (handleRefresh tfs fs none st).fatal = false ∧
    (∀ h content, tfs h = some content →
      (handleRefresh tfs fs (some h) st).fatal = false ∧
      (handleRefresh tfs fs (some h) st).state.files =
        refreshFiles fs st.files) ∧
    (∀ tag l fd hh, (tag, l) ∈ st.files → fd ∈ l → fd.handle = some hh →
      fs hh = none →
      ("Failed to refresh file: " ++ fd.path) ∈
        (handleRefresh tfs fs none st).fileErrors) := by
  refine ⟨?_, rfl, ?_, ?_⟩
  · intro h hfail
    simp [handleRefresh, hfail]
  · intro h content hok
    constructor <;> simp [handleRefresh, hok]
  · intro tag l fd hh hmem hfd hhandle hfail
    exact error_mem_refreshErrors fs st.files tag l fd hh hmem hfd hhandle hfail

/-- Witness for claim C1, applying `handleRefresh_template_failure_aborts`. -/
theorem handleRefresh_template_failure_aborts_witness :
    handleRefresh (fun _ => none) (fun _ => some (5, "new")) (some 7)
        ⟨[], [("file-0", [⟨"a.txt", 3, "old", some 1⟩])], []⟩ =
      { state := ⟨[], [("file-0", [⟨"a.txt", 3, "old", some 1⟩])], []⟩,
        templateRefreshed := false, filesRefreshed := false,
        fileErrors := [], fatal := true } :=
  (handleRefresh_template_failure_aborts (fun _ => none)
      (fun _ => some (5, "new"))
      ⟨[], [("file-0", [⟨"a.txt", 3, "old", some 1⟩])], []⟩).1 7 rfl

/-! ### Size-budget gate (C5) and folder uncheck (C10) -/

theorem processPickedFiles_records (confirm : CandidateFile → Bool) :
    ∀ picked : List CandidateFile,
    (processPickedFiles confirm picked).1 =
      (picked.filter (gateAdmits confirm)).map candidateRecord := by
  intro picked
  induction picked with
  | nil => rfl
  | cons c cs ih =>
    simp only [processPickedFiles, List.filter_cons]
    by_cases h : gateAdmits confirm c
    · simp [h, ih]
    · simp [h, ih]

theorem processPickedFiles_gated (confirm : CandidateFile → Bool) :
    ∀ picked : List CandidateFile,
    (processPickedFiles confirm picked).2 =
      picked.filter (fun c => decide (c.size > sizeThreshold)) := by
  intro picked
  induction picked with
  | nil => rfl
  | cons c cs ih =>
    simp only [processPickedFiles, List.filter_cons]
    by_cases h : c.size > sizeThreshold
    · simp [h, ih]
    · simp [h, ih]

/-- Claim C5: whenever a candidate's size exceeds `10 * 1024 * 1024` bytes
the confirmation gate is consulted for it (it appears among the gated
candidates), and only oversized candidates are ever gated; a vetoed
oversized candidate is discarded entirely, so its path never appears
in the resulting selection unless it was already there or another
admitted candidate shares it; candidates at or below the threshold
are added without consulting the gate.  The same gate governs the
single-file checkbox path `FileItem.handleChange`. -/
theorem selection_gate_spec (confirm : CandidateFile → Bool)
    (files : List FileDataWithHandle) (picked : List CandidateFile)
    (c : CandidateFile) (path : String) :
    (c ∈ picked → c.size > sizeThreshold →
      c ∈ (processPickedFiles confirm picked).2) ∧
    (∀ g, g ∈ (processPickedFiles confirm picked).2 →
      g.size > sizeThreshold) ∧
    (c ∈ picked → c.size ≤ sizeThreshold →
      candidateRecord c ∈ handleSelectFiles confirm files picked) ∧
    ((∀ c', c' ∈ picked → c'.name = c.name →
        gateAdmits confirm c' = false) →
      (∀ r, r ∈ files → r.path ≠ c.name) →
      ∀ r, r ∈ handleSelectFiles confirm files picked → r.path ≠ c.name) ∧
    (c.size > sizeThreshold → confirm c = false →
      fileItemHandleChange confirm true files path c = files) ∧
    (c.size ≤ sizeThreshold →
      fileItemHandleChange confirm true files path c =
        files ++ [{ path := path, size := c.size, contents := c.contents,
                    handle := some c.handleId }]) := by
  refine ⟨?_, ?_, ?_, ?_, ?_, ?_⟩
  · intro hmem hsize
    rw [processPickedFiles_gated]
    exact List.mem_filter.mpr ⟨hmem, by simpa using hsize⟩
  · intro g hg
    rw [processPickedFiles_gated] at hg
    simpa using (List.mem_filter.mp hg).2
  · intro hmem hsize
    have hadm : gateAdmits confirm c = true := by
      simp only [gateAdmits]
      have : ¬c.size > sizeThreshold := by omega
      simp [this]
    have hrec : candidateRecord c ∈ (processPickedFiles confirm picked).1 := by
      rw [processPickedFiles_records]
      exact List.mem_map_of_mem candidateRecord
        (List.mem_filter.mpr ⟨hmem, hadm⟩)
    show candidateRecord c ∈
      (if (processPickedFiles confirm picked).1.length > 0 then
        files ++ (processPickedFiles confirm picked).1 else files)
    have hlen : (processPickedFiles confirm picked).1.length > 0 :=
      List.length_pos.mpr (List.ne_nil_of_mem hrec)
    rw [if_pos hlen]
    exact List.mem_append_right files hrec
  · intro hveto hfiles r hr
    have hr' : r ∈ files ∨ r ∈ (processPickedFiles confirm picked).1 := by
      by_cases hlen : (processPickedFiles confirm picked).1.length > 0
      · have : handleSelectFiles confirm files picked =
            files ++ (processPickedFiles confirm picked).1 := by
          show (if _ > 0 then _ else _) = _
          rw [if_pos hlen]
        rw [this] at hr
        exact List.mem_append.mp hr
      · have : handleSelectFiles confirm files picked = files := by
          show (if _ > 0 then _ else _) = _
          rw [if_neg hlen]
        rw [this] at hr
        exact Or.inl hr
    rcases hr' with hr' | hr'
    · exact hfiles r hr'
    · rw [processPickedFiles_records] at hr'
      obtain ⟨c', hc', rfl⟩ := List.mem_map.mp hr'
      have hc'mem := (List.mem_filter.mp hc').1
      have hc'adm := (List.mem_filter.mp hc').2
      intro hname
      have : gateAdmits confirm c' = false :=
        hveto c' hc'mem (by simpa [candidateRecord] using hname)
      rw [this] at hc'adm
      exact Bool.false_ne_true hc'adm
  · intro hsize hconf
    have : gateAdmits confirm c = false := by
      simp [gateAdmits, hsize, hconf]
    simp [fileItemHandleChange, this]
  · intro hsize
    have : gateAdmits confirm c = true := by
      have : ¬c.size > sizeThreshold := by omega
      simp [gateAdmits, this]
    simp [fileItemHandleChange, this]

/-- Witness for claim C5, applying `selection_gate_spec`, with one 10 MiB + 1 byte
candidate that the gate vetoes and one 5-byte candidate admitted
without gating. -/
theorem selection_gate_spec_witness :
    (⟨"big.bin", 10485761, "B", 1⟩ : CandidateFile) ∈
      (processPickedFiles (fun _ => false)
        [⟨"small.txt", 5, "s", 0⟩, ⟨"big.bin", 10485761, "B", 1⟩]).2 ∧
    candidateRecord ⟨"small.txt", 5, "s", 0⟩ ∈
      handleSelectFiles (fun _ => false) []
        [⟨"small.txt", 5, "s", 0⟩, ⟨"big.bin", 10485761, "B", 1⟩] ∧
    (candidateRecord ⟨"small.txt", 5, "s", 0⟩).path ≠ "big.bin" := by
  refine ⟨?_, ?_, ?_⟩
  · exact (selection_gate_spec (fun _ => false) []
      [⟨"small.txt", 5, "s", 0⟩, ⟨"big.bin", 10485761, "B", 1⟩]
      ⟨"big.bin", 10485761, "B", 1⟩ "p").1
      (by decide) (by decide)
  · exact (selection_gate_spec (fun _ => false) []
      [⟨"small.txt", 5, "s", 0⟩, ⟨"big.bin", 10485761, "B", 1⟩]
      ⟨"small.txt", 5, "s", 0⟩ "p").2.2.1
      (by decide) (by decide)
  · exact (selection_gate_spec (fun _ => false) []
      [⟨"small.txt", 5, "s", 0⟩, ⟨"big.bin", 10485761, "B", 1⟩]
      ⟨"big.bin", 10485761, "B", 1⟩ "p").2.2.2.1
      (by decide) (by decide)
      (candidateRecord ⟨"small.txt", 5, "s", 0⟩) (by decide)

theorem any_path_eq_contains (afs : List EnumFile) (p : String) :
    afs.any (fun af => af.path == p) =
      (afs.map EnumFile.path).contains p := by
  induction afs with
  | nil => rfl
  | cons af rest ih =>
    simp only [List.any_cons, List.map_cons, List.contains_cons, ih]
    by_cases h : af.path = p
    · subst h; simp
    · have h1 : (af.path == p) = false := beq_eq_false_iff_ne.mpr h
      have h2 : (p == af.path) = false := beq_eq_false_iff_ne.mpr (Ne.symm h)
      rw [h1, h2]

/-- Claim C10: unchecking a folder keeps exactly the records whose path
differs from the relative path of every file enumerated under it — a
filter, so surviving records keep their order — and removal is by path
equality, so every record sharing an enumerated path (duplicates from
direct selection included) is removed. -/
theorem folderUncheck_spec (entries : EntryList) (root : String)
    (files : List FileDataWithHandle) :
    folderUncheck (getAllFilesInDirectory entries root) files =
      files.filter (fun f =>
        ! ((getAllFilesInDirectory entries root).map EnumFile.path).contains
          f.path) ∧
    (∀ f, f ∈ folderUncheck (getAllFilesInDirectory entries root) files ↔
      f ∈ files ∧
        f.path ∉ (getAllFilesInDirectory entries root).map EnumFile.path) ∧
    (folderUncheck (getAllFilesInDirectory entries root) files).Sublist
      files := by
  have heq : folderUncheck (getAllFilesInDirectory entries root) files =
      files.filter (fun f =>
        ! ((getAllFilesInDirectory entries root).map EnumFile.path).contains
          f.path) := by
    unfold folderUncheck
    apply List.filter_congr
    intro f _
    rw [any_path_eq_contains]
  refine ⟨heq, ?_, ?_⟩
  · intro f
    rw [heq, List.mem_filter]
    simp [List.contains, List.elem_iff]
  · rw [heq]
    exact List.filter_sublist files

end Superpromptor
